import Mathlib

/-!
Verification of the MRG32K3A generator core
(`src/library/src/rng/mrg32k3a.hpp`).

The development shallowly embeds:
* the three-region split (`misalignment`, `head_size`, `tail_size`, `vec_n`)
  computed at the top of `generate_kernel` (lines 77-84);
* the grid-stride vectorized loop, the single-writer head/tail logic and the
  engine save of `generate_kernel` (lines 86-142), generic over the engine
  type `E` (the device engine lives in `device_engines.hpp`, outside this
  tree; the kernel only calls `engine()`, modelled by an abstract
  `adv : E → Nat × E`) and over the distribution functor (modelled by its two
  width constants and a function `dist : List Nat → List T`);
* the host-side generator handle `rocrand_mrg32k3a` (construction, `reset`,
  `set_seed`, `set_offset`, `init`, `generate`, `generate_poisson`,
  lines 396-515);
* the normal / log-normal distribution functors (lines 234-385), with the
  device numeric routines (`mrg_normal_distribution2`, `mrg_box_muller_half`,
  `uniform_distribution_half`, float arithmetic) abstracted as parameters.

Machine integers: the kernel indices and sizes are `size_t` / `unsigned int`
values far below their overflow bounds (`head_size`, `tail_size` are bounded
by the constexpr `output_width ≤ 4`), so they are embedded as `Nat`.
-/

namespace Mrg32k3a

/-- `(output_width - uintptr / sizeof(T) % output_width) % output_width`
(line 78-81); `addr` stands for the element offset `uintptr / sizeof(T)`. -/
def misalignment (output_width addr : Nat) : Nat :=
  (output_width - addr % output_width) % output_width

/-- `const unsigned int head_size = min(n, misalignment);` (line 82). -/
def head_size (output_width addr n : Nat) : Nat :=
  min n (misalignment output_width addr)

/-- `const unsigned int tail_size = (n - head_size) % output_width;` (line 83). -/
def tail_size (output_width addr n : Nat) : Nat :=
  (n - head_size output_width addr n) % output_width

/-- `const size_t vec_n = (n - head_size) / output_width;` (line 84). -/
def vec_n (output_width addr n : Nat) : Nat :=
  (n - head_size output_width addr n) / output_width

/-- The `head_size` leading scalar slots `data[0..head_size)`. -/
def headRegion (ow addr n : Nat) : Set Nat := {j | j < head_size ow addr n}

/-- The aligned vectorized body: the elements covered by the vector writes
`vec_data[k]`, `k < vec_n`. -/
def bodyRegion (ow addr n : Nat) : Set Nat :=
  {j | ∃ k < vec_n ow addr n, ∃ o < ow, j = misalignment ow addr + k * ow + o}

/-- The `tail_size` trailing scalar slots `data[n - tail_size..n)`. -/
def tailRegion (ow addr n : Nat) : Set Nat :=
  {j | n - tail_size ow addr n ≤ j ∧ j < n}

section Kernel

variable {E T : Type}

/-- The plain state advance underlying `engine()`: the draw's side effect on
the engine state. -/
def engineStep (adv : E → Nat × E) : E → E := fun e => (adv e).2

/-- `for(i = 0; i < input_width; i++) input[i] = engine();` (lines 89-92 and
108-111, 125-128): draw `m` raw values, returning them in order together with
the advanced engine. -/
def drawN (adv : E → Nat × E) : Nat → E → List Nat × E
  | 0, e => ([], e)
  | Nat.succ m, e =>
    let p := adv e
    let r := drawN adv m p.2
    (p.1 :: r.1, r.2)

/-- The grid-stride vectorized loop (lines 87-98): while `index < vec_n`,
draw `input_width` raws, apply the distribution, store the result as the
vector write at group `index`, and step `index` by `stride`.  The write at
group `index` covers elements `misalignment + index*output_width + o`,
`o < output_width`; writes are accumulated as `(group index, outputs)` pairs.
The conjunct `0 < stride` mirrors the fact that the launch configuration
always has `gridDim*blockDim ≥ 1` (the loop would not terminate otherwise). -/
def vecLoop (stride vn iw : Nat) (adv : E → Nat × E) (dist : List Nat → List T) :
    Nat → E → List (Nat × List T) → List (Nat × List T) × E × Nat
  | index, e, acc =>
    if h : index < vn ∧ 0 < stride then
      let p := drawN adv iw e
      vecLoop stride vn iw adv dist (index + stride) p.2 (acc ++ [(index, dist p.1)])
    else (acc, e, index)
termination_by index _ _ => vn - index
decreasing_by simp_wf; omega

/-- The sequence of group indices visited by the grid-stride loop starting at
`index`. -/
def gridIndices (stride vn : Nat) : Nat → List Nat
  | index =>
    if h : index < vn ∧ 0 < stride then index :: gridIndices stride vn (index + stride)
    else []
termination_by index => vn - index
decreasing_by simp_wf; omega

/-- What one lane of `generate_kernel` produces: its vector writes (group
index, outputs), its head write and tail write (the output arrays of the two
extra transform invocations, lines 106-138, `none` when the invocation did
not happen), the engine it stores back (line 142), and the final value of
`index` after the loop. -/
structure LaneOut (E T : Type) where
  vecWrites : List (Nat × List T)
  headWrite : Option (List T)
  tailWrite : Option (List T)
  engine : E
  finalIndex : Nat

/-- One lane of `generate_kernel` (lines 56-143) for lane `engine_id = id`,
started on engine `e0 = engines[id]`: the grid-stride loop, then the
head/tail logic guarded by `output_width > 1 && index == vec_n`. -/
def laneRun (stride iw ow : Nat) (adv : E → Nat × E) (dist : List Nat → List T)
    (n addr : Nat) (id : Nat) (e0 : E) : LaneOut E T :=
  let vn := vec_n ow addr n
  let hs := head_size ow addr n
  let ts := tail_size ow addr n
  let r := vecLoop stride vn iw adv dist id e0 []
  if 1 < ow ∧ r.2.2 = vn then
    if 0 < hs then
      let ph := drawN adv iw r.2.1
      if 0 < ts then
        let pt := drawN adv iw ph.2
        ⟨r.1, some (dist ph.1), some (dist pt.1), pt.2, r.2.2⟩
      else ⟨r.1, some (dist ph.1), none, ph.2, r.2.2⟩
    else
      if 0 < ts then
        let pt := drawN adv iw r.2.1
        ⟨r.1, none, some (dist pt.1), pt.2, r.2.2⟩
      else ⟨r.1, none, none, r.2.1, r.2.2⟩
  else ⟨r.1, none, none, r.2.1, r.2.2⟩

/-- The set of buffer element indices a lane writes: each vector write at
group `k` covers `misalignment + k*ow + o` for `o < ow` (line 95, via
`vec_data = data + misalignment`), a head write covers `data[o]` for
`o < head_size` (lines 114-120), a tail write covers `data[n - tail_size + o]`
for `o < tail_size` (lines 131-137). -/
def laneWriteSet (ow addr n : Nat) (lo : LaneOut E T) : Set Nat :=
  {j | (∃ p ∈ lo.vecWrites, ∃ o < ow, j = misalignment ow addr + p.1 * ow + o)
    ∨ (lo.headWrite.isSome = true ∧ j < head_size ow addr n)
    ∨ (lo.tailWrite.isSome = true ∧
        ∃ o < tail_size ow addr n, j = n - tail_size ow addr n + o)}

/-- How many times the lane invoked the distribution; each invocation consumed
exactly `input_width` raw draws from its engine. -/
def laneInvocations (lo : LaneOut E T) : Nat :=
  lo.vecWrites.length + (if lo.headWrite.isSome then 1 else 0)
    + (if lo.tailWrite.isSome then 1 else 0)

/-- The whole kernel: one `LaneOut` per lane, and the engine array after the
per-lane stores `engines[engine_id] = engine` (line 142); slots outside the
launched lanes (`id ≥ stride`) are untouched. -/
structure KernelOut (E T : Type) where
  lanes : Nat → LaneOut E T
  engines : Nat → E

/-- `generate_kernel` (lines 56-143), for a launch of `stride` lanes. -/
def generate_kernel (stride iw ow : Nat) (adv : E → Nat × E)
    (dist : List Nat → List T) (n addr : Nat) (engines : Nat → E) :
    KernelOut E T where
  lanes := fun id => laneRun stride iw ow adv dist n addr id (engines id)
  engines := fun id =>
    if id < stride then (laneRun stride iw ow adv dist n addr id (engines id)).engine
    else engines id

/-- Total number of raw draws consumed across all lanes in one kernel run. -/
def kernelTotalDraws (stride iw ow : Nat) (adv : E → Nat × E)
    (dist : List Nat → List T) (n addr : Nat) (engines : Nat → E) : Nat :=
  ∑ id ∈ Finset.range stride,
    iw * laneInvocations (laneRun stride iw ow adv dist n addr id (engines id))

end Kernel

/-- The status codes of the host API that the modelled entry points return
(`rocrand.h` is outside this tree; only the constants used by
`mrg32k3a.hpp` are modelled, with the spec's invalid-parameter kind). -/
inductive rocrand_status
  | success
  | allocation_failed
  | launch_failure
  | invalid_parameter
deriving DecidableEq, Repr

/-- Modelled from the spec: `ROCRAND_MRG32K3A_DEFAULT_SEED` is defined in
`rocrand.h`, outside this tree; the spec (§4.1, §6) requires only a fixed
non-zero default seed, matching the shipped value 12345. -/
def ROCRAND_MRG32K3A_DEFAULT_SEED : Nat := 12345

/-- The host-visible state of a `rocrand_mrg32k3a` generator handle
(lines 396-412, 517-534): seed, offset, the initialization flag and the
contents of the device engine array (one engine per lane). -/
structure rocrand_mrg32k3a (E : Type) where
  m_seed : Nat
  m_offset : Nat
  m_engines_initialized : Bool
  m_engines : Nat → E

/-- The constructor (lines 396-412): stores seed and offset, allocates the
engine array (its initial device contents `mem` are arbitrary and stay
unread until `init`), leaves the handle uninitialized, and replaces a zero
seed by the default.  Allocation failure, a HIP runtime condition, is not
modelled. -/
def construct {E : Type} (seed offset : Nat) (mem : Nat → E) :
    rocrand_mrg32k3a E where
  m_seed := if seed = 0 then ROCRAND_MRG32K3A_DEFAULT_SEED else seed
  m_offset := offset
  m_engines_initialized := false
  m_engines := mem

/-- `reset()` (lines 419-422). -/
def reset {E : Type} (s : rocrand_mrg32k3a E) : rocrand_mrg32k3a E :=
  { s with m_engines_initialized := false }

/-- `set_seed` (lines 428-436): zero is replaced by the default, and the
handle is marked uninitialized. -/
def set_seed {E : Type} (seed : Nat) (s : rocrand_mrg32k3a E) :
    rocrand_mrg32k3a E :=
  { s with
    m_seed := if seed = 0 then ROCRAND_MRG32K3A_DEFAULT_SEED else seed,
    m_engines_initialized := false }

/-- `set_offset` (lines 438-442). -/
def set_offset {E : Type} (offset : Nat) (s : rocrand_mrg32k3a E) :
    rocrand_mrg32k3a E :=
  { s with m_offset := offset, m_engines_initialized := false }

/-- `init()` (lines 444-461): if already initialized, return success without
launching anything; otherwise launch `init_engines_kernel` (lines 47-54),
which sets `engines[engine_id] = mrg32k3a_device_engine(seed, engine_id,
offset)` for every lane.  The device engine constructor lives in
`device_engines.hpp`, outside this tree; it is modelled by the abstract
function `mkEngine` — per the spec (§3) it is deterministic in
(seed, lane index, offset).  Launch failure, a HIP runtime condition, is not
modelled. -/
def init {E : Type} (mkEngine : Nat → Nat → Nat → E) (s : rocrand_mrg32k3a E) :
    rocrand_status × rocrand_mrg32k3a E :=
  if s.m_engines_initialized then (rocrand_status.success, s)
  else
    (rocrand_status.success,
      { s with
        m_engines := fun engine_id => mkEngine s.m_seed engine_id s.m_offset,
        m_engines_initialized := true })

/-- `generate` (lines 463-481): call `init()` first and return its status on
failure; otherwise launch `generate_kernel` on the engine array, store the
advanced engines, and report the kernel result. -/
def generate {E T : Type} (mkEngine : Nat → Nat → Nat → E) (stride iw ow : Nat)
    (adv : E → Nat × E) (dist : List Nat → List T) (s : rocrand_mrg32k3a E)
    (n addr : Nat) :
    rocrand_status × rocrand_mrg32k3a E × Option (KernelOut E T) :=
  let r := init mkEngine s
  if r.1 = rocrand_status.success then
    let k := generate_kernel stride iw ow adv dist n addr r.2.m_engines
    (rocrand_status.success, { r.2 with m_engines := k.engines }, some k)
  else (r.1, r.2, none)

/-- Modelled from the spec: `poisson_distribution_manager::set_lambda` lives
in `distributions.hpp`, outside this tree; the spec (§4.3, §7, §8) requires
it to reject a non-positive lambda with an invalid-parameter status before
any lane is launched.  Lambda (a `double`) is modelled as a rational. -/
def set_lambda (lambda : ℚ) : Except rocrand_status Unit :=
  if lambda ≤ 0 then Except.error rocrand_status.invalid_parameter
  else Except.ok ()

/-- `generate_poisson` (lines 504-515): `m_poisson.set_lambda(lambda)` runs
first on the host; a thrown status is returned immediately — the handle and
the buffer are untouched and no kernel is dispatched.  Otherwise generation
proceeds with the Poisson table transform `pdis` (the table contents are an
external collaborator). -/
def generate_poisson {E : Type} (mkEngine : Nat → Nat → Nat → E)
    (stride iw ow : Nat) (adv : E → Nat × E) (pdis : List Nat → List Nat)
    (s : rocrand_mrg32k3a E) (n addr : Nat) (lambda : ℚ) :
    rocrand_status × rocrand_mrg32k3a E × Option (KernelOut E Nat) :=
  match set_lambda lambda with
  | Except.error st => (st, s, none)
  | Except.ok _ => generate mkEngine stride iw ow adv pdis s n addr

/-- `mrg_normal_distribution<float>::operator()` (lines 247-253) and the
identical `<double>` version (lines 269-275): the device Box-Muller pair
routine `mrg_normal_distribution2` (resp. `..._double2`) is the abstract
`bm2`, and float (resp. double) arithmetic is the `Add`/`Mul` structure of
`α`. -/
def mrg_normal_distribution_apply {α : Type} [Add α] [Mul α]
    (bm2 : Nat → Nat → α × α) (mean stddev : α) (input : Nat × Nat) : α × α :=
  (mean + (bm2 input.1 input.2).1 * stddev,
   mean + (bm2 input.1 input.2).2 * stddev)

/-- `mrg_log_normal_distribution<float>::operator()` (lines 325-331) and the
identical `<double>` version (lines 347-353): same Box-Muller pair, then
`expf` (resp. `exp`), abstracted as `expf`. -/
def mrg_log_normal_distribution_apply {α : Type} [Add α] [Mul α] (expf : α → α)
    (bm2 : Nat → Nat → α × α) (mean stddev : α) (input : Nat × Nat) : α × α :=
  (expf (mean + (bm2 input.1 input.2).1 * stddev),
   expf (mean + (bm2 input.1 input.2).2 * stddev))

/-- The value pair `v` shared by the `__half` normal and log-normal functors
(lines 294-298 and 372-376): `a = (unsigned int)(input[0] *
ROCRAND_MRG32K3A_UINT_NORM)` is the abstract `norm`; the two 16-bit halves of
`a` (the `short` casts of `a` and `a >> 16`) go through
`uniform_distribution_half` (`udh`) and then `mrg_box_muller_half` (`bmh`). -/
def mrg_half_pair {H : Type} (norm : Nat → Nat) (udh : Nat → H)
    (bmh : H → H → H × H) (x : Nat) : H × H :=
  bmh (udh (norm x % 65536)) (udh (norm x / 65536 % 65536))

/-- `mrg_normal_distribution<__half>::operator()`, native-half branch
(lines 299-301): `__hadd(mean, __hmul(v, stddev))` with abstract half
arithmetic. -/
def mrg_normal_distribution_half_native {H : Type} (norm : Nat → Nat)
    (udh : Nat → H) (bmh : H → H → H × H) (hadd hmul : H → H → H)
    (mean stddev : H) (x : Nat) : H × H :=
  (hadd mean (hmul (mrg_half_pair norm udh bmh x).1 stddev),
   hadd mean (hmul (mrg_half_pair norm udh bmh x).2 stddev))

/-- `mrg_log_normal_distribution<__half>::operator()`, native-half branch
(lines 377-379): `hexp(__hadd(mean, __hmul(v, stddev)))`. -/
def mrg_log_normal_distribution_half_native {H : Type} (norm : Nat → Nat)
    (udh : Nat → H) (bmh : H → H → H × H) (hadd hmul : H → H → H)
    (hexp : H → H) (mean stddev : H) (x : Nat) : H × H :=
  (hexp (hadd mean (hmul (mrg_half_pair norm udh bmh x).1 stddev)),
   hexp (hadd mean (hmul (mrg_half_pair norm udh bmh x).2 stddev)))

/-- `mrg_normal_distribution<__half>::operator()`, float-promoted branch
(lines 302-305): `__float2half(__half2float(mean) + __half2float(stddev) *
__half2float(v))`, with the conversions abstracted as `h2f`/`f2h`. -/
def mrg_normal_distribution_half_promoted {H α : Type} [Add α] [Mul α]
    (norm : Nat → Nat) (udh : Nat → H) (bmh : H → H → H × H)
    (h2f : H → α) (f2h : α → H) (mean stddev : H) (x : Nat) : H × H :=
  (f2h (h2f mean + h2f stddev * h2f (mrg_half_pair norm udh bmh x).1),
   f2h (h2f mean + h2f stddev * h2f (mrg_half_pair norm udh bmh x).2))

/-- `mrg_log_normal_distribution<__half>::operator()`, float-promoted branch
(lines 380-383): the exponential is applied in promoted arithmetic, before
the conversion back to half. -/
def mrg_log_normal_distribution_half_promoted {H α : Type} [Add α] [Mul α]
    (expf : α → α) (norm : Nat → Nat) (udh : Nat → H) (bmh : H → H → H × H)
    (h2f : H → α) (f2h : α → H) (mean stddev : H) (x : Nat) : H × H :=
  (f2h (expf (h2f mean + h2f stddev * h2f (mrg_half_pair norm udh bmh x).1)),
   f2h (expf (h2f mean + h2f stddev * h2f (mrg_half_pair norm udh bmh x).2)))

section SplitLemmas

theorem misalignment_lt (ow addr : Nat) (h : 0 < ow) : misalignment ow addr < ow :=
  Nat.mod_lt _ h

theorem head_size_le (ow addr n : Nat) : head_size ow addr n ≤ n :=
  Nat.min_le_left _ _

theorem tail_size_lt (ow addr n : Nat) (h : 0 < ow) : tail_size ow addr n < ow :=
  Nat.mod_lt _ h

/-- The three regions tile the requested length. -/
theorem split_sum (ow addr n : Nat) :
    head_size ow addr n + vec_n ow addr n * ow + tail_size ow addr n = n := by
  have h1 : head_size ow addr n ≤ n := head_size_le ow addr n
  have h2 : (n - head_size ow addr n) / ow * ow + (n - head_size ow addr n) % ow
      = n - head_size ow addr n := Nat.div_add_mod' _ _
  unfold vec_n tail_size
  omega

/-- When the vectorized region is nonempty the head equals the misalignment
(the clamp in `min(n, misalignment)` did not fire). -/
theorem head_size_eq_misalignment (ow addr n : Nat) (h : 0 < vec_n ow addr n)
    (how : 0 < ow) : head_size ow addr n = misalignment ow addr := by
  have hle : head_size ow addr n ≤ n := head_size_le ow addr n
  have hpos : 0 < (n - head_size ow addr n) / ow := h
  have : ow ≤ n - head_size ow addr n := by
    by_contra hc
    push_neg at hc
    rw [Nat.div_eq_of_lt hc] at hpos
    exact Nat.lt_irrefl 0 hpos
  have hn : head_size ow addr n < n := by omega
  unfold head_size at hn ⊢
  omega

end SplitLemmas

section KernelLemmas

variable {E T : Type}
variable (stride vn iw : Nat) (adv : E → Nat × E) (dist : List Nat → List T)

theorem drawN_snd (m : Nat) (e : E) : (drawN adv m e).2 = (engineStep adv)^[m] e := by
  induction m generalizing e with
  | zero => rfl
  | succ k ih =>
    show (drawN adv k (adv e).2).2 = (engineStep adv)^[k + 1] e
    rw [ih, Function.iterate_succ_apply]
    rfl

theorem vecLoop_fst_aux : ∀ (fuel index : Nat) (e : E) (acc : List (Nat × List T)),
    vn - index ≤ fuel →
    ((vecLoop stride vn iw adv dist index e acc).1).map Prod.fst
      = acc.map Prod.fst ++ gridIndices stride vn index := by
  intro fuel
  induction fuel with
  | zero =>
    intro index e acc h
    rw [vecLoop, gridIndices, dif_neg (by omega), dif_neg (by omega)]
    simp
  | succ k ih =>
    intro index e acc h
    rw [vecLoop, gridIndices]
    by_cases hc : index < vn ∧ 0 < stride
    · rw [dif_pos hc, dif_pos hc]
      rw [ih (index + stride) _ _ (by omega)]
      simp
    · rw [dif_neg hc, dif_neg hc]
      simp

theorem vecLoop_fst (index : Nat) (e : E) (acc : List (Nat × List T)) :
    ((vecLoop stride vn iw adv dist index e acc).1).map Prod.fst
      = acc.map Prod.fst ++ gridIndices stride vn index :=
  vecLoop_fst_aux stride vn iw adv dist (vn - index) index e acc (Nat.le_refl _)

theorem vecLoop_length (index : Nat) (e : E) (acc : List (Nat × List T)) :
    ((vecLoop stride vn iw adv dist index e acc).1).length
      = acc.length + (gridIndices stride vn index).length := by
  have h := congrArg List.length (vecLoop_fst stride vn iw adv dist index e acc)
  simpa using h

theorem vecLoop_engine_aux : ∀ (fuel index : Nat) (e : E) (acc : List (Nat × List T)),
    vn - index ≤ fuel →
    (vecLoop stride vn iw adv dist index e acc).2.1
      = (engineStep adv)^[iw * (gridIndices stride vn index).length] e := by
  intro fuel
  induction fuel with
  | zero =>
    intro index e acc h
    rw [vecLoop, gridIndices, dif_neg (by omega), dif_neg (by omega)]
    simp
  | succ k ih =>
    intro index e acc h
    rw [vecLoop, gridIndices]
    by_cases hc : index < vn ∧ 0 < stride
    · rw [dif_pos hc, dif_pos hc]
      rw [ih (index + stride) _ _ (by omega), drawN_snd]
      rw [← Function.iterate_add_apply]
      rw [List.length_cons, Nat.mul_succ]
    · rw [dif_neg hc, dif_neg hc]
      simp

theorem vecLoop_engine (index : Nat) (e : E) (acc : List (Nat × List T)) :
    (vecLoop stride vn iw adv dist index e acc).2.1
      = (engineStep adv)^[iw * (gridIndices stride vn index).length] e :=
  vecLoop_engine_aux stride vn iw adv dist (vn - index) index e acc (Nat.le_refl _)

theorem vecLoop_fin_aux : ∀ (fuel index : Nat) (e : E) (acc : List (Nat × List T)),
    vn - index ≤ fuel → 0 < stride →
    (vn ≤ index ∧ (vecLoop stride vn iw adv dist index e acc).2.2 = index) ∨
    (index < vn ∧ vn ≤ (vecLoop stride vn iw adv dist index e acc).2.2 ∧
      (vecLoop stride vn iw adv dist index e acc).2.2 < vn + stride ∧
      (vecLoop stride vn iw adv dist index e acc).2.2 % stride = index % stride) := by
  intro fuel
  induction fuel with
  | zero =>
    intro index e acc h hs
    rw [vecLoop, dif_neg (by omega)]
    left
    exact ⟨by omega, rfl⟩
  | succ k ih =>
    intro index e acc h hs
    by_cases hc : index < vn ∧ 0 < stride
    · rw [vecLoop, dif_pos hc]
      rcases ih (index + stride) (drawN adv iw e).2
          (acc ++ [(index, dist (drawN adv iw e).1)]) (by omega) hs with
        ⟨h1, h2⟩ | ⟨h1, h2, h3, h4⟩
      · right
        refine ⟨hc.1, ?_, ?_, ?_⟩
        · rw [h2]; omega
        · rw [h2]; omega
        · rw [h2, Nat.add_mod_right]
      · right
        refine ⟨hc.1, h2, h3, ?_⟩
        rw [h4, Nat.add_mod_right]
    · rw [vecLoop, dif_neg hc]
      left
      exact ⟨by omega, rfl⟩

theorem vecLoop_fin (index : Nat) (e : E) (acc : List (Nat × List T)) (hs : 0 < stride) :
    (vn ≤ index ∧ (vecLoop stride vn iw adv dist index e acc).2.2 = index) ∨
    (index < vn ∧ vn ≤ (vecLoop stride vn iw adv dist index e acc).2.2 ∧
      (vecLoop stride vn iw adv dist index e acc).2.2 < vn + stride ∧
      (vecLoop stride vn iw adv dist index e acc).2.2 % stride = index % stride) :=
  vecLoop_fin_aux stride vn iw adv dist (vn - index) index e acc (Nat.le_refl _) hs

theorem mem_gridIndices_aux : ∀ (fuel index k : Nat),
    vn - index ≤ fuel → 0 < stride →
    (k ∈ gridIndices stride vn index ↔
      index ≤ k ∧ k < vn ∧ k % stride = index % stride) := by
  intro fuel
  induction fuel with
  | zero =>
    intro index k h hs
    rw [gridIndices, dif_neg (by omega)]
    simp only [List.not_mem_nil, false_iff]
    omega
  | succ m ih =>
    intro index k h hs
    by_cases hc : index < vn ∧ 0 < stride
    · rw [gridIndices, dif_pos hc]
      rw [List.mem_cons, ih (index + stride) k (by omega) hs]
      constructor
      · rintro (rfl | ⟨h1, h2, h3⟩)
        · exact ⟨Nat.le_refl _, hc.1, rfl⟩
        · exact ⟨by omega, h2, by rw [h3, Nat.add_mod_right]⟩
      · rintro ⟨h1, h2, h3⟩
        by_cases hk : k = index
        · exact Or.inl hk
        · right
          have hlt : index < k := by omega
          have hdvd : stride ∣ (k - index) :=
            Nat.dvd_of_mod_eq_zero (Nat.sub_mod_eq_zero_of_mod_eq h3)
          have hge : stride ≤ k - index := Nat.le_of_dvd (by omega) hdvd
          exact ⟨by omega, h2, by rw [h3, Nat.add_mod_right]⟩
    · rw [gridIndices, dif_neg hc]
      simp only [List.not_mem_nil, false_iff]
      omega

theorem mem_gridIndices (index k : Nat) (hs : 0 < stride) :
    k ∈ gridIndices stride vn index ↔
      index ≤ k ∧ k < vn ∧ k % stride = index % stride :=
  mem_gridIndices_aux stride vn (vn - index) index k (Nat.le_refl _) hs

theorem gridIndices_nodup_aux : ∀ (fuel index : Nat),
    vn - index ≤ fuel → 0 < stride → (gridIndices stride vn index).Nodup := by
  intro fuel
  induction fuel with
  | zero =>
    intro index h hs
    rw [gridIndices, dif_neg (by omega)]
    exact List.nodup_nil
  | succ m ih =>
    intro index h hs
    by_cases hc : index < vn ∧ 0 < stride
    · rw [gridIndices, dif_pos hc]
      refine List.nodup_cons.2 ⟨?_, ih (index + stride) (by omega) hs⟩
      intro hmem
      have := (mem_gridIndices stride vn (index + stride) index hs).1 hmem
      omega
    · rw [gridIndices, dif_neg hc]
      exact List.nodup_nil

theorem gridIndices_nodup (index : Nat) (hs : 0 < stride) :
    (gridIndices stride vn index).Nodup :=
  gridIndices_nodup_aux stride vn (vn - index) index (Nat.le_refl _) hs

theorem gridIndices_toFinset (id : Nat) (hs : 0 < stride) (hid : id < stride) :
    (gridIndices stride vn id).toFinset
      = (Finset.range vn).filter (fun k => k % stride = id) := by
  ext k
  rw [List.mem_toFinset, mem_gridIndices stride vn id k hs, Finset.mem_filter,
    Finset.mem_range, Nat.mod_eq_of_lt hid]
  constructor
  · rintro ⟨h1, h2, h3⟩
    exact ⟨h2, h3⟩
  · rintro ⟨h1, h2⟩
    exact ⟨h2 ▸ Nat.mod_le k stride, h1, h2⟩

theorem sum_gridIndices_length (hs : 0 < stride) :
    ∑ id ∈ Finset.range stride, (gridIndices stride vn id).length = vn := by
  have H : ∀ k ∈ Finset.range vn, k % stride ∈ Finset.range stride := by
    intro k _
    exact Finset.mem_range.2 (Nat.mod_lt _ hs)
  have hcard := Finset.card_eq_sum_card_fiberwise H
  rw [Finset.card_range] at hcard
  have hstep : ∑ id ∈ Finset.range stride, (gridIndices stride vn id).length
      = ∑ id ∈ Finset.range stride,
          ((Finset.range vn).filter (fun k => k % stride = id)).card := by
    refine Finset.sum_congr rfl ?_
    intro id hid
    rw [← gridIndices_toFinset stride vn id hs (Finset.mem_range.1 hid),
      List.toFinset_card_of_nodup (gridIndices_nodup stride vn id hs)]
  rw [hstep, ← hcard]

theorem laneRun_vecWrites (ow n addr id : Nat) (e0 : E) :
    (laneRun stride iw ow adv dist n addr id e0).vecWrites
      = (vecLoop stride (vec_n ow addr n) iw adv dist id e0 []).1 := by
  simp only [laneRun]
  split
  · split
    · split <;> rfl
    · split <;> rfl
  · rfl

theorem laneRun_finalIndex (ow n addr id : Nat) (e0 : E) :
    (laneRun stride iw ow adv dist n addr id e0).finalIndex
      = (vecLoop stride (vec_n ow addr n) iw adv dist id e0 []).2.2 := by
  simp only [laneRun]
  split
  · split
    · split <;> rfl
    · split <;> rfl
  · rfl

theorem laneRun_headWrite (ow n addr id : Nat) (e0 : E) :
    (laneRun stride iw ow adv dist n addr id e0).headWrite.isSome = true ↔
      (1 < ow ∧ (vecLoop stride (vec_n ow addr n) iw adv dist id e0 []).2.2
          = vec_n ow addr n ∧ 0 < head_size ow addr n) := by
  simp only [laneRun]
  split
  next hc1 =>
    split
    next hc2 =>
      split <;> simp [hc1.1, hc1.2, hc2]
    next hc2 =>
      split <;> simp [hc2]
  next hc1 =>
    simp only [Option.isSome_none, Bool.false_eq_true, false_iff]
    intro hk
    exact hc1 ⟨hk.1, hk.2.1⟩

theorem laneRun_tailWrite (ow n addr id : Nat) (e0 : E) :
    (laneRun stride iw ow adv dist n addr id e0).tailWrite.isSome = true ↔
      (1 < ow ∧ (vecLoop stride (vec_n ow addr n) iw adv dist id e0 []).2.2
          = vec_n ow addr n ∧ 0 < tail_size ow addr n) := by
  simp only [laneRun]
  split
  next hc1 =>
    split
    next hc2 =>
      split
      next hc3 => simp [hc1.1, hc1.2, hc3]
      next hc3 => simp [hc3]
    next hc2 =>
      split
      next hc3 => simp [hc1.1, hc1.2, hc3]
      next hc3 => simp [hc3]
  next hc1 =>
    simp only [Option.isSome_none, Bool.false_eq_true, false_iff]
    intro hk
    exact hc1 ⟨hk.1, hk.2.1⟩

theorem invocation_count_some (x : List T) :
    (if (some x).isSome = true then 1 else 0) = 1 := rfl

theorem invocation_count_none :
    (if (none : Option (List T)).isSome = true then 1 else 0) = 0 := rfl

theorem laneRun_engine (ow n addr id : Nat) (e0 : E) :
    (laneRun stride iw ow adv dist n addr id e0).engine
      = (engineStep adv)^[iw *
          laneInvocations (laneRun stride iw ow adv dist n addr id e0)] e0 := by
  have hloopE := vecLoop_engine stride (vec_n ow addr n) iw adv dist id e0 []
  have hlen := vecLoop_length stride (vec_n ow addr n) iw adv dist id e0 []
  simp only [List.length_nil, Nat.zero_add] at hlen
  simp only [laneRun, laneInvocations]
  split
  next hc1 =>
    split
    next hc2 =>
      split
      next hc3 =>
        dsimp only
        rw [invocation_count_some, invocation_count_some]
        rw [drawN_snd, drawN_snd, hloopE, hlen]
        rw [← Function.iterate_add_apply, ← Function.iterate_add_apply]
        congr 1
        ring
      next hc3 =>
        dsimp only
        rw [invocation_count_some, invocation_count_none]
        rw [drawN_snd, hloopE, hlen]
        rw [← Function.iterate_add_apply]
        congr 1
        ring
    next hc2 =>
      split
      next hc3 =>
        dsimp only
        rw [invocation_count_none, invocation_count_some]
        rw [drawN_snd, hloopE, hlen]
        rw [← Function.iterate_add_apply]
        congr 1
        ring
      next hc3 =>
        dsimp only
        rw [invocation_count_none]
        rw [hloopE, hlen]
        simp
  next hc1 =>
    dsimp only
    rw [invocation_count_none]
    rw [hloopE, hlen]
    simp

/-- For a launched lane (`id < stride`) the final loop index equals `vec_n`
exactly when the lane is the designated head/tail writer `vec_n % stride`. -/
theorem finalIndex_eq_iff (ow n addr id : Nat) (e0 : E)
    (hstride : 0 < stride) (hid : id < stride) :
    (laneRun stride iw ow adv dist n addr id e0).finalIndex = vec_n ow addr n ↔
      id = vec_n ow addr n % stride := by
  rw [laneRun_finalIndex]
  set vn := vec_n ow addr n with hvn
  rcases vecLoop_fin stride vn iw adv dist id e0 [] hstride with
    ⟨h1, h2⟩ | ⟨h1, h2, h3, h4⟩
  · rw [h2]
    constructor
    · rintro rfl
      exact (Nat.mod_eq_of_lt hid).symm
    · intro hmod
      have : vn % stride ≤ vn := Nat.mod_le _ _
      have : vn < stride := by omega
      rw [Nat.mod_eq_of_lt this] at hmod
      omega
  · set fin := (vecLoop stride vn iw adv dist id e0 []).2.2 with hfin
    constructor
    · intro heq
      rw [← heq, h4, Nat.mod_eq_of_lt hid]
    · intro hmod
      have hfs : fin % stride = vn % stride := by
        rw [h4, Nat.mod_eq_of_lt hid, hmod]
      have hd : stride ∣ (fin - vn) :=
        Nat.dvd_of_mod_eq_zero (Nat.sub_mod_eq_zero_of_mod_eq hfs)
      rcases hd with ⟨c, hc⟩
      rcases Nat.eq_zero_or_pos c with rfl | hcpos
      · omega
      · have : stride ≤ fin - vn := by
          rw [hc]
          exact Nat.le_mul_of_pos_right _ hcpos
        omega

end KernelLemmas

section Regions

theorem one_lt_ow_of_head (ow addr n : Nat) (how : 0 < ow)
    (h : 0 < head_size ow addr n) : 1 < ow := by
  have h1 : head_size ow addr n ≤ misalignment ow addr := Nat.min_le_right _ _
  have h2 : misalignment ow addr < ow := misalignment_lt ow addr how
  omega

theorem one_lt_ow_of_tail (ow addr n : Nat) (how : 0 < ow)
    (h : 0 < tail_size ow addr n) : 1 < ow := by
  have h2 : tail_size ow addr n < ow := tail_size_lt ow addr n how
  omega

theorem bodyRegion_bounds (ow addr n : Nat) (how : 0 < ow) (j : Nat)
    (hj : j ∈ bodyRegion ow addr n) :
    head_size ow addr n ≤ j ∧ j < n - tail_size ow addr n := by
  rcases hj with ⟨k, hk, o, ho, rfl⟩
  have hvn : 0 < vec_n ow addr n := by omega
  have hmis : head_size ow addr n = misalignment ow addr :=
    head_size_eq_misalignment ow addr n hvn how
  have hsum := split_sum ow addr n
  have hko : k * ow + o < vec_n ow addr n * ow := by
    have h1 : k + 1 ≤ vec_n ow addr n := hk
    have h2 : (k + 1) * ow ≤ vec_n ow addr n * ow := Nat.mul_le_mul_right ow h1
    have h3 : k * ow + o < (k + 1) * ow := by
      rw [Nat.succ_mul]
      omega
    omega
  omega

end Regions

section WriteSetLemmas

variable {E T : Type}
variable (stride iw ow n addr : Nat) (adv : E → Nat × E) (dist : List Nat → List T)

/-- Exact description of one launched lane's write set: its share of the
vectorized body (the groups congruent to its lane index), plus — only for the
designated lane `vec_n % stride` — the head and tail slots. -/
theorem laneWriteSet_iff (hstride : 0 < stride) (how : 0 < ow)
    (id : Nat) (hid : id < stride) (e0 : E) (j : Nat) :
    j ∈ laneWriteSet ow addr n (laneRun stride iw ow adv dist n addr id e0) ↔
      (∃ k < vec_n ow addr n, k % stride = id ∧
        ∃ o < ow, j = misalignment ow addr + k * ow + o)
    ∨ (id = vec_n ow addr n % stride ∧ j < head_size ow addr n)
    ∨ (id = vec_n ow addr n % stride ∧
        ∃ o < tail_size ow addr n, j = n - tail_size ow addr n + o) := by
  unfold laneWriteSet
  simp only [Set.mem_setOf_eq]
  constructor
  · rintro (⟨p, hp, o, ho, rfl⟩ | ⟨hsome, hj⟩ | ⟨hsome, o, ho, rfl⟩)
    · left
      have hmem : p.1 ∈ (gridIndices stride (vec_n ow addr n) id) := by
        have hfst := vecLoop_fst stride (vec_n ow addr n) iw adv dist id e0 []
        rw [← laneRun_vecWrites stride iw adv dist ow n addr id e0] at hfst
        simp only [List.map_nil, List.nil_append] at hfst
        rw [← hfst]
        exact List.mem_map_of_mem Prod.fst hp
      rw [mem_gridIndices stride (vec_n ow addr n) id p.1 hstride] at hmem
      exact ⟨p.1, hmem.2.1, by rw [hmem.2.2, Nat.mod_eq_of_lt hid], o, ho, rfl⟩
    · right; left
      rw [laneRun_headWrite] at hsome
      have := (finalIndex_eq_iff stride iw adv dist ow n addr id e0 hstride hid).1
      rw [laneRun_finalIndex] at this
      exact ⟨this hsome.2.1, hj⟩
    · right; right
      rw [laneRun_tailWrite] at hsome
      have := (finalIndex_eq_iff stride iw adv dist ow n addr id e0 hstride hid).1
      rw [laneRun_finalIndex] at this
      exact ⟨this hsome.2.1, o, ho, rfl⟩
  · rintro (⟨k, hk, hkmod, o, ho, rfl⟩ | ⟨hdes, hj⟩ | ⟨hdes, o, ho, rfl⟩)
    · left
      have hmem : k ∈ gridIndices stride (vec_n ow addr n) id := by
        rw [mem_gridIndices stride (vec_n ow addr n) id k hstride]
        exact ⟨hkmod ▸ Nat.mod_le k stride, hk, by rw [hkmod, Nat.mod_eq_of_lt hid]⟩
      have hfst := vecLoop_fst stride (vec_n ow addr n) iw adv dist id e0 []
      rw [← laneRun_vecWrites stride iw adv dist ow n addr id e0] at hfst
      simp only [List.map_nil, List.nil_append] at hfst
      rw [← hfst] at hmem
      rcases List.mem_map.1 hmem with ⟨p, hp, hpfst⟩
      exact ⟨p, hp, o, ho, by rw [hpfst]⟩
    · right; left
      refine ⟨?_, hj⟩
      rw [laneRun_headWrite]
      have hfin := (finalIndex_eq_iff stride iw adv dist ow n addr id e0 hstride hid).2 hdes
      rw [laneRun_finalIndex] at hfin
      exact ⟨one_lt_ow_of_head ow addr n how (by omega), hfin, by omega⟩
    · right; right
      refine ⟨?_, o, ho, rfl⟩
      rw [laneRun_tailWrite]
      have hfin := (finalIndex_eq_iff stride iw adv dist ow n addr id e0 hstride hid).2 hdes
      rw [laneRun_finalIndex] at hfin
      exact ⟨one_lt_ow_of_tail ow addr n how (by omega), hfin, by omega⟩

/-- Two (group, offset) decompositions of the same element agree on the
group. -/
theorem group_decomp_inj (how : 0 < ow) (k1 o1 k2 o2 : Nat)
    (h1 : o1 < ow) (h2 : o2 < ow) (he : k1 * ow + o1 = k2 * ow + o2) :
    k1 = k2 := by
  have e1 : (k1 * ow + o1) / ow = k1 := by
    rw [Nat.mul_comm k1 ow, Nat.mul_add_div how, Nat.div_eq_of_lt h1,
      Nat.add_zero]
  have e2 : (k2 * ow + o2) / ow = k2 := by
    rw [Nat.mul_comm k2 ow, Nat.mul_add_div how, Nat.div_eq_of_lt h2,
      Nat.add_zero]
  rw [he, e2] at e1
  exact e1.symm

/-- Summed over all lanes, the head and tail invocations amount to one
invocation when the head is nonempty plus one when the tail is nonempty. -/
theorem sum_headtail (hstride : 0 < stride) (how : 0 < ow) (es : Nat → E) :
    ∑ id ∈ Finset.range stride,
      ((if (laneRun stride iw ow adv dist n addr id (es id)).headWrite.isSome
          then 1 else 0)
        + (if (laneRun stride iw ow adv dist n addr id (es id)).tailWrite.isSome
          then 1 else 0))
      = ((if 0 < head_size ow addr n then 1 else 0)
        + (if 0 < tail_size ow addr n then 1 else 0)) := by
  have hdlt : vec_n ow addr n % stride < stride := Nat.mod_lt _ hstride
  have hzero : ∀ b ∈ Finset.range stride, b ≠ vec_n ow addr n % stride →
      ((if (laneRun stride iw ow adv dist n addr b (es b)).headWrite.isSome
          then 1 else 0)
        + (if (laneRun stride iw ow adv dist n addr b (es b)).tailWrite.isSome
          then 1 else 0)) = 0 := by
    intro b hb hbne
    have hblt := Finset.mem_range.1 hb
    have hnot : ¬ ((vecLoop stride (vec_n ow addr n) iw adv dist b (es b) []).2.2
        = vec_n ow addr n) := by
      intro hfin
      apply hbne
      have hiff := (finalIndex_eq_iff stride iw adv dist ow n addr b (es b)
        hstride hblt).1
      rw [laneRun_finalIndex] at hiff
      exact hiff hfin
    have hh : (if (laneRun stride iw ow adv dist n addr b (es b)).headWrite.isSome
        then 1 else 0) = 0 := by
      rw [if_neg]
      intro hc
      exact hnot ((laneRun_headWrite stride iw adv dist ow n addr b (es b)).1 hc).2.1
    have ht : (if (laneRun stride iw ow adv dist n addr b (es b)).tailWrite.isSome
        then 1 else 0) = 0 := by
      rw [if_neg]
      intro hc
      exact hnot ((laneRun_tailWrite stride iw adv dist ow n addr b (es b)).1 hc).2.1
    omega
  rw [Finset.sum_eq_single_of_mem (vec_n ow addr n % stride)
    (Finset.mem_range.2 hdlt) hzero]
  have hfin : (vecLoop stride (vec_n ow addr n) iw adv dist
      (vec_n ow addr n % stride) (es (vec_n ow addr n % stride)) []).2.2
      = vec_n ow addr n := by
    have hiff := (finalIndex_eq_iff stride iw adv dist ow n addr
      (vec_n ow addr n % stride) (es (vec_n ow addr n % stride)) hstride hdlt).2 rfl
    rw [laneRun_finalIndex] at hiff
    exact hiff
  congr 1
  · by_cases hh : 0 < head_size ow addr n
    · rw [if_pos hh, if_pos]
      rw [laneRun_headWrite]
      exact ⟨one_lt_ow_of_head ow addr n how hh, hfin, hh⟩
    · rw [if_neg hh, if_neg]
      intro hc
      exact hh ((laneRun_headWrite stride iw adv dist ow n addr _ _).1 hc).2.2
  · by_cases ht : 0 < tail_size ow addr n
    · rw [if_pos ht, if_pos]
      rw [laneRun_tailWrite]
      exact ⟨one_lt_ow_of_tail ow addr n how ht, hfin, ht⟩
    · rw [if_neg ht, if_neg]
      intro hc
      exact ht ((laneRun_tailWrite stride iw adv dist ow n addr _ _).1 hc).2.2

/-- Exact draw count of one kernel run: one invocation per vector group plus
the head and tail invocations, times `input_width` draws each. -/
theorem kernelTotalDraws_eq (hstride : 0 < stride) (how : 0 < ow) (es : Nat → E) :
    kernelTotalDraws stride iw ow adv dist n addr es
      = iw * (vec_n ow addr n
          + ((if 0 < head_size ow addr n then 1 else 0)
            + (if 0 < tail_size ow addr n then 1 else 0))) := by
  unfold kernelTotalDraws
  rw [← Finset.mul_sum]
  congr 1
  have hsplit : ∀ id ∈ Finset.range stride,
      laneInvocations (laneRun stride iw ow adv dist n addr id (es id))
        = (gridIndices stride (vec_n ow addr n) id).length
          + ((if (laneRun stride iw ow adv dist n addr id (es id)).headWrite.isSome
              then 1 else 0)
            + (if (laneRun stride iw ow adv dist n addr id (es id)).tailWrite.isSome
              then 1 else 0)) := by
    intro id hid
    unfold laneInvocations
    rw [laneRun_vecWrites stride iw adv dist ow n addr id (es id),
      vecLoop_length stride (vec_n ow addr n) iw adv dist id (es id) []]
    simp [Nat.add_assoc]
  rw [Finset.sum_congr rfl hsplit, Finset.sum_add_distrib,
    sum_gridIndices_length stride (vec_n ow addr n) hstride,
    sum_headtail stride iw ow n addr adv dist hstride how es]

end WriteSetLemmas

section HandleLemmas

variable {E T : Type}

theorem init_fst (mkEngine : Nat → Nat → Nat → E) (s : rocrand_mrg32k3a E) :
    (init mkEngine s).1 = rocrand_status.success := by
  unfold init
  split <;> rfl

theorem init_flag (mkEngine : Nat → Nat → Nat → E) (s : rocrand_mrg32k3a E) :
    (init mkEngine s).2.m_engines_initialized = true := by
  unfold init
  by_cases h : s.m_engines_initialized
  · rw [if_pos h]
    exact h
  · rw [if_neg h]

/-- `generate` never fails in the model (launch failures are HIP runtime
conditions): it always initializes, runs the kernel on the initialized
engines and stores the advanced engines. -/
theorem generate_eq (mkEngine : Nat → Nat → Nat → E) (stride iw ow : Nat)
    (adv : E → Nat × E) (dist : List Nat → List T) (s : rocrand_mrg32k3a E)
    (n addr : Nat) :
    generate mkEngine stride iw ow adv dist s n addr
      = (rocrand_status.success,
         { (init mkEngine s).2 with
            m_engines := (generate_kernel stride iw ow adv dist n addr
              (init mkEngine s).2.m_engines).engines },
         some (generate_kernel stride iw ow adv dist n addr
            (init mkEngine s).2.m_engines)) := by
  simp only [generate]
  rw [if_pos (init_fst mkEngine s)]

end HandleLemmas

section Claims

variable {E T : Type}

/-- C3: for every buffer address, length `n`, and `output_width ≥ 1`, the
three-region split computed by the kernel satisfies the spec's formulas:
`head_size` is the misalignment of the buffer clamped to `n`,
`tail_size = (n - head_size) % output_width`,
`vec_n = (n - head_size) / output_width`, and
`head_size + vec_n * output_width + tail_size = n`. -/
theorem mrg32k3a_region_split (ow addr n : Nat) (how : 1 ≤ ow) :
    head_size ow addr n = min n (misalignment ow addr)
  ∧ tail_size ow addr n = (n - head_size ow addr n) % ow
  ∧ vec_n ow addr n = (n - head_size ow addr n) / ow
  ∧ head_size ow addr n + vec_n ow addr n * ow + tail_size ow addr n = n :=
  ⟨rfl, rfl, rfl, split_sum ow addr n⟩

/-- Witness for C3 at `output_width = 4`, `addr = 3`, `n = 10`
(misalignment 1, head 1, body 2 groups, tail 1). -/
theorem mrg32k3a_region_split_witness :
    head_size 4 3 10 = min 10 (misalignment 4 3)
  ∧ tail_size 4 3 10 = (10 - head_size 4 3 10) % 4
  ∧ vec_n 4 3 10 = (10 - head_size 4 3 10) / 4
  ∧ head_size 4 3 10 + vec_n 4 3 10 * 4 + tail_size 4 3 10 = 10 :=
  mrg32k3a_region_split 4 3 10 (by decide)

/-- C10: for `n = 0` the kernel writes nothing and advances no engine:
all three region sizes are 0, every lane produces no vector write, no head
write, no tail write, keeps its engine untouched with final index equal to
its lane id, and the stored-back engine array equals the input array. -/
theorem mrg32k3a_zero_length_no_effect (stride iw ow addr : Nat)
    (adv : E → Nat × E) (dist : List Nat → List T) (es : Nat → E) :
    head_size ow addr 0 = 0 ∧ tail_size ow addr 0 = 0 ∧ vec_n ow addr 0 = 0
  ∧ (∀ id, (generate_kernel stride iw ow adv dist 0 addr es).lanes id
      = ⟨[], none, none, es id, id⟩)
  ∧ (generate_kernel stride iw ow adv dist 0 addr es).engines = es := by
  have hhs : head_size ow addr 0 = 0 := Nat.zero_min _
  have hts : tail_size ow addr 0 = 0 := by
    unfold tail_size
    rw [hhs]
    simp
  have hvn : vec_n ow addr 0 = 0 := by
    unfold vec_n
    rw [hhs]
    simp
  have hvec : ∀ (id : Nat) (e : E),
      vecLoop stride (vec_n ow addr 0) iw adv dist id e [] = ([], e, id) := by
    intro id e
    rw [hvn, vecLoop]
    simp
  have hlane : ∀ id, (generate_kernel stride iw ow adv dist 0 addr es).lanes id
      = ⟨[], none, none, es id, id⟩ := by
    intro id
    show laneRun stride iw ow adv dist 0 addr id (es id) = _
    simp only [laneRun]
    rw [hvec id (es id), hhs, hts]
    simp
  refine ⟨hhs, hts, hvn, hlane, ?_⟩
  funext id
  show (if id < stride
      then (laneRun stride iw ow adv dist 0 addr id (es id)).engine
      else es id) = es id
  rw [show laneRun stride iw ow adv dist 0 addr id (es id)
      = ⟨[], none, none, es id, id⟩ from hlane id]
  simp

/-- C8: every launched lane loads `engines[engine_id]`, stores back exactly
the advanced state of that same engine (its loaded engine stepped once per
raw draw it consumed), depends on no other engine slot, and slots outside
the launch are untouched. -/
theorem mrg32k3a_engine_frame (stride iw ow n addr : Nat) (adv : E → Nat × E)
    (dist : List Nat → List T) (es : Nat → E) (id : Nat) (hid : id < stride) :
    (generate_kernel stride iw ow adv dist n addr es).engines id
      = (engineStep adv)^[iw * laneInvocations
          ((generate_kernel stride iw ow adv dist n addr es).lanes id)] (es id)
  ∧ (∀ es2 : Nat → E, es2 id = es id →
      (generate_kernel stride iw ow adv dist n addr es2).engines id
        = (generate_kernel stride iw ow adv dist n addr es).engines id)
  ∧ (∀ j, stride ≤ j →
      (generate_kernel stride iw ow adv dist n addr es).engines j = es j) := by
  refine ⟨?_, ?_, ?_⟩
  · show (if id < stride
        then (laneRun stride iw ow adv dist n addr id (es id)).engine
        else es id) = _
    rw [if_pos hid]
    exact laneRun_engine stride iw adv dist ow n addr id (es id)
  · intro es2 h2
    show (if id < stride
        then (laneRun stride iw ow adv dist n addr id (es2 id)).engine
        else es2 id)
      = (if id < stride
        then (laneRun stride iw ow adv dist n addr id (es id)).engine
        else es id)
    rw [h2]
  · intro j hj
    show (if j < stride
        then (laneRun stride iw ow adv dist n addr j (es j)).engine
        else es j) = es j
    rw [if_neg (by omega)]

/-- Witness for C8 at a concrete two-lane configuration. -/
theorem mrg32k3a_engine_frame_witness :
    (generate_kernel 2 1 2 (fun s : Nat => (s, s + 1)) (fun l : List Nat => l ++ l)
        5 1 (fun _ => 0)).engines 1
      = (engineStep (fun s : Nat => (s, s + 1)))^[1 * laneInvocations
          ((generate_kernel 2 1 2 (fun s : Nat => (s, s + 1))
            (fun l : List Nat => l ++ l) 5 1 (fun _ => 0)).lanes 1)] ((fun _ : Nat => 0) 1)
  ∧ (∀ es2 : Nat → Nat, es2 1 = (fun _ : Nat => 0) 1 →
      (generate_kernel 2 1 2 (fun s : Nat => (s, s + 1)) (fun l : List Nat => l ++ l)
          5 1 es2).engines 1
        = (generate_kernel 2 1 2 (fun s : Nat => (s, s + 1)) (fun l : List Nat => l ++ l)
          5 1 (fun _ => 0)).engines 1)
  ∧ (∀ j, 2 ≤ j →
      (generate_kernel 2 1 2 (fun s : Nat => (s, s + 1)) (fun l : List Nat => l ++ l)
          5 1 (fun _ => 0)).engines j = (fun _ : Nat => 0) j) :=
  mrg32k3a_engine_frame 2 1 2 5 1 (fun s : Nat => (s, s + 1))
    (fun l : List Nat => l ++ l) (fun _ => 0) 1 (by decide)

/-- C2: after the grid-stride loop exactly one launched lane has final index
equal to `vec_n` (the designated lane `vec_n % stride`); only a lane with
that final index ever holds a head or tail write; no two distinct lanes
write a common buffer element; and the head, body and tail regions are
pairwise disjoint subsets of `data[0..n)`. -/
theorem mrg32k3a_single_writer (stride iw ow n addr : Nat) (adv : E → Nat × E)
    (dist : List Nat → List T) (es : Nat → E)
    (hstride : 0 < stride) (how : 0 < ow) :
    (∃! id, id < stride ∧
      ((generate_kernel stride iw ow adv dist n addr es).lanes id).finalIndex
        = vec_n ow addr n)
  ∧ (∀ id, id < stride →
      (((generate_kernel stride iw ow adv dist n addr es).lanes id).headWrite.isSome
          = true
        ∨ ((generate_kernel stride iw ow adv dist n addr es).lanes id).tailWrite.isSome
          = true) →
      id = vec_n ow addr n % stride)
  ∧ (∀ id1 id2, id1 < stride → id2 < stride → id1 ≠ id2 → ∀ j,
      j ∈ laneWriteSet ow addr n
        ((generate_kernel stride iw ow adv dist n addr es).lanes id1) →
      j ∉ laneWriteSet ow addr n
        ((generate_kernel stride iw ow adv dist n addr es).lanes id2))
  ∧ (∀ j, ¬(j ∈ headRegion ow addr n ∧ j ∈ bodyRegion ow addr n))
  ∧ (∀ j, ¬(j ∈ headRegion ow addr n ∧ j ∈ tailRegion ow addr n))
  ∧ (∀ j, ¬(j ∈ bodyRegion ow addr n ∧ j ∈ tailRegion ow addr n))
  ∧ (∀ j, j ∈ headRegion ow addr n → j < n)
  ∧ (∀ j, j ∈ bodyRegion ow addr n → j < n)
  ∧ (∀ j, j ∈ tailRegion ow addr n → j < n) := by
  have hdlt : vec_n ow addr n % stride < stride := Nat.mod_lt _ hstride
  have hsum := split_sum ow addr n
  have hhle := head_size_le ow addr n
  simp only [generate_kernel]
  refine ⟨?_, ?_, ?_, ?_, ?_, ?_, ?_, ?_, ?_⟩
  · refine ⟨vec_n ow addr n % stride, ⟨hdlt, ?_⟩, ?_⟩
    · exact (finalIndex_eq_iff stride iw adv dist ow n addr _
        (es (vec_n ow addr n % stride)) hstride hdlt).2 rfl
    · rintro y ⟨hy1, hy2⟩
      exact (finalIndex_eq_iff stride iw adv dist ow n addr y (es y) hstride hy1).1 hy2
  · intro id hid hw
    rcases hw with hw | hw
    · have hfin := ((laneRun_headWrite stride iw adv dist ow n addr id (es id)).1 hw).2.1
      have hiff := (finalIndex_eq_iff stride iw adv dist ow n addr id (es id)
        hstride hid).1
      rw [laneRun_finalIndex] at hiff
      exact hiff hfin
    · have hfin := ((laneRun_tailWrite stride iw adv dist ow n addr id (es id)).1 hw).2.1
      have hiff := (finalIndex_eq_iff stride iw adv dist ow n addr id (es id)
        hstride hid).1
      rw [laneRun_finalIndex] at hiff
      exact hiff hfin
  · intro id1 id2 h1 h2 hne j hj1 hj2
    rw [laneWriteSet_iff stride iw ow n addr adv dist hstride how id1 h1 (es id1) j]
      at hj1
    rw [laneWriteSet_iff stride iw ow n addr adv dist hstride how id2 h2 (es id2) j]
      at hj2
    rcases hj1 with ⟨k1, hk1, hm1, o1, ho1, he1⟩ | ⟨hd1, hh1⟩ | ⟨hd1, o1, ho1, he1⟩ <;>
      rcases hj2 with ⟨k2, hk2, hm2, o2, ho2, he2⟩ | ⟨hd2, hh2⟩ | ⟨hd2, o2, ho2, he2⟩
    · have he : k1 * ow + o1 = k2 * ow + o2 := by
        have h := he1.symm.trans he2
        rw [Nat.add_assoc, Nat.add_assoc] at h
        exact Nat.add_left_cancel h
      have hk := group_decomp_inj ow how k1 o1 k2 o2 ho1 ho2 he
      exact hne (by rw [← hm1, ← hm2, hk])
    · have hb := bodyRegion_bounds ow addr n how j ⟨k1, hk1, o1, ho1, he1⟩
      omega
    · have hb := bodyRegion_bounds ow addr n how j ⟨k1, hk1, o1, ho1, he1⟩
      omega
    · have hb := bodyRegion_bounds ow addr n how j ⟨k2, hk2, o2, ho2, he2⟩
      omega
    · exact hne (hd1.trans hd2.symm)
    · exact hne (hd1.trans hd2.symm)
    · have hb := bodyRegion_bounds ow addr n how j ⟨k2, hk2, o2, ho2, he2⟩
      omega
    · exact hne (hd1.trans hd2.symm)
    · exact hne (hd1.trans hd2.symm)
  · rintro j ⟨hjh, hjb⟩
    simp only [headRegion, Set.mem_setOf_eq] at hjh
    have hb := bodyRegion_bounds ow addr n how j hjb
    omega
  · rintro j ⟨hjh, hjt⟩
    simp only [headRegion, Set.mem_setOf_eq] at hjh
    simp only [tailRegion, Set.mem_setOf_eq] at hjt
    omega
  · rintro j ⟨hjb, hjt⟩
    have hb := bodyRegion_bounds ow addr n how j hjb
    simp only [tailRegion, Set.mem_setOf_eq] at hjt
    omega
  · intro j hj
    simp only [headRegion, Set.mem_setOf_eq] at hj
    omega
  · intro j hj
    have hb := bodyRegion_bounds ow addr n how j hj
    omega
  · intro j hj
    simp only [tailRegion, Set.mem_setOf_eq] at hj
    exact hj.2

/-- Witness for C2 at a concrete two-lane configuration
(`output_width = 2`, `n = 5`, odd base address). -/
theorem mrg32k3a_single_writer_witness :
    (∃! id, id < 2 ∧
      ((generate_kernel 2 1 2 (fun s : Nat => (s, s + 1)) (fun l : List Nat => l ++ l)
        5 1 (fun _ => 0)).lanes id).finalIndex = vec_n 2 1 5)
  ∧ (∀ id, id < 2 →
      (((generate_kernel 2 1 2 (fun s : Nat => (s, s + 1)) (fun l : List Nat => l ++ l)
          5 1 (fun _ => 0)).lanes id).headWrite.isSome = true
        ∨ ((generate_kernel 2 1 2 (fun s : Nat => (s, s + 1)) (fun l : List Nat => l ++ l)
          5 1 (fun _ => 0)).lanes id).tailWrite.isSome = true) →
      id = vec_n 2 1 5 % 2)
  ∧ (∀ id1 id2, id1 < 2 → id2 < 2 → id1 ≠ id2 → ∀ j,
      j ∈ laneWriteSet 2 1 5
        ((generate_kernel 2 1 2 (fun s : Nat => (s, s + 1)) (fun l : List Nat => l ++ l)
          5 1 (fun _ => 0)).lanes id1) →
      j ∉ laneWriteSet 2 1 5
        ((generate_kernel 2 1 2 (fun s : Nat => (s, s + 1)) (fun l : List Nat => l ++ l)
          5 1 (fun _ => 0)).lanes id2))
  ∧ (∀ j, ¬(j ∈ headRegion 2 1 5 ∧ j ∈ bodyRegion 2 1 5))
  ∧ (∀ j, ¬(j ∈ headRegion 2 1 5 ∧ j ∈ tailRegion 2 1 5))
  ∧ (∀ j, ¬(j ∈ bodyRegion 2 1 5 ∧ j ∈ tailRegion 2 1 5))
  ∧ (∀ j, j ∈ headRegion 2 1 5 → j < 5)
  ∧ (∀ j, j ∈ bodyRegion 2 1 5 → j < 5)
  ∧ (∀ j, j ∈ tailRegion 2 1 5 → j < 5) :=
  mrg32k3a_single_writer 2 1 2 5 1 (fun s : Nat => (s, s + 1))
    (fun l : List Nat => l ++ l) (fun _ => 0) (by decide) (by decide)

/-- C1 (amended): the kernel writes exactly the `n` buffer elements
`data[0..n)` (every element is covered by some launched lane's write set and
no write lands outside), consumes exactly
`(vec_n + [head_size > 0] + [tail_size > 0]) * input_width` raw draws in
total across all lanes — the designated lane performs one full extra
transform invocation for the head and one for the tail, so when both are
nonempty and `head_size + tail_size ≤ output_width` this exceeds the
`ceil(n / output_width) * input_width` of the original claim — and stores
each launched lane's advanced engine state back into its own slot. -/
theorem mrg32k3a_generate_kernel_contract (stride iw ow n addr : Nat)
    (adv : E → Nat × E) (dist : List Nat → List T) (es : Nat → E)
    (hstride : 0 < stride) (how : 0 < ow) :
    (∀ j, (∃ id < stride, j ∈ laneWriteSet ow addr n
        ((generate_kernel stride iw ow adv dist n addr es).lanes id)) ↔ j < n)
  ∧ kernelTotalDraws stride iw ow adv dist n addr es
      = (vec_n ow addr n
          + ((if 0 < head_size ow addr n then 1 else 0)
            + (if 0 < tail_size ow addr n then 1 else 0))) * iw
  ∧ (∀ id < stride, (generate_kernel stride iw ow adv dist n addr es).engines id
      = (engineStep adv)^[iw * laneInvocations
          ((generate_kernel stride iw ow adv dist n addr es).lanes id)] (es id)) := by
  have hsum := split_sum ow addr n
  have hhle := head_size_le ow addr n
  refine ⟨?_, ?_, ?_⟩
  · intro j
    simp only [generate_kernel]
    constructor
    · rintro ⟨id, hid, hj⟩
      rw [laneWriteSet_iff stride iw ow n addr adv dist hstride how id hid (es id) j]
        at hj
      rcases hj with ⟨k, hk, hkm, o, ho, rfl⟩ | ⟨hdes, hj⟩ | ⟨hdes, o, ho, rfl⟩
      · have hb := bodyRegion_bounds ow addr n how _ ⟨k, hk, o, ho, rfl⟩
        omega
      · omega
      · omega
    · intro hjn
      by_cases h1 : j < head_size ow addr n
      · refine ⟨vec_n ow addr n % stride, Nat.mod_lt _ hstride, ?_⟩
        rw [laneWriteSet_iff stride iw ow n addr adv dist hstride how _
          (Nat.mod_lt _ hstride) _ j]
        exact Or.inr (Or.inl ⟨rfl, h1⟩)
      · by_cases h2 : j < head_size ow addr n + vec_n ow addr n * ow
        · have hvnpos : 0 < vec_n ow addr n := by
            rcases Nat.eq_zero_or_pos (vec_n ow addr n) with hz | hp
            · rw [hz] at h2
              omega
            · exact hp
          have hmis : head_size ow addr n = misalignment ow addr :=
            head_size_eq_misalignment ow addr n hvnpos how
          have hdlt : j - head_size ow addr n < vec_n ow addr n * ow := by omega
          have hk : (j - head_size ow addr n) / ow < vec_n ow addr n :=
            (Nat.div_lt_iff_lt_mul how).2 hdlt
          refine ⟨(j - head_size ow addr n) / ow % stride, Nat.mod_lt _ hstride, ?_⟩
          rw [laneWriteSet_iff stride iw ow n addr adv dist hstride how _
            (Nat.mod_lt _ hstride) _ j]
          left
          refine ⟨(j - head_size ow addr n) / ow, hk, rfl,
            (j - head_size ow addr n) % ow, Nat.mod_lt _ how, ?_⟩
          have hdm : (j - head_size ow addr n) / ow * ow
              + (j - head_size ow addr n) % ow = j - head_size ow addr n :=
            Nat.div_add_mod' _ _
          have hj : j = head_size ow addr n + (j - head_size ow addr n) := by omega
          rw [Nat.add_assoc, hdm, ← hmis, ← hj]
        · refine ⟨vec_n ow addr n % stride, Nat.mod_lt _ hstride, ?_⟩
          rw [laneWriteSet_iff stride iw ow n addr adv dist hstride how _
            (Nat.mod_lt _ hstride) _ j]
          right
          right
          exact ⟨rfl, j - (n - tail_size ow addr n), by omega, by omega⟩
  · rw [kernelTotalDraws_eq stride iw ow n addr adv dist hstride how es]
    ring
  · intro id hid
    show (if id < stride
        then (laneRun stride iw ow adv dist n addr id (es id)).engine
        else es id) = _
    rw [if_pos hid]
    exact laneRun_engine stride iw adv dist ow n addr id (es id)

/-- Witness for C1 at a concrete two-lane configuration
(`output_width = 2`, `n = 5`, odd base address: head 1, two body groups,
tail 0). -/
theorem mrg32k3a_generate_kernel_contract_witness :
    (∀ j, (∃ id < 2, j ∈ laneWriteSet 2 1 5
        ((generate_kernel 2 1 2 (fun s : Nat => (s, s + 1)) (fun l : List Nat => l ++ l)
          5 1 (fun _ => 0)).lanes id)) ↔ j < 5)
  ∧ kernelTotalDraws 2 1 2 (fun s : Nat => (s, s + 1)) (fun l : List Nat => l ++ l)
        5 1 (fun _ => 0)
      = (vec_n 2 1 5
          + ((if 0 < head_size 2 1 5 then 1 else 0)
            + (if 0 < tail_size 2 1 5 then 1 else 0))) * 1
  ∧ (∀ id < 2, (generate_kernel 2 1 2 (fun s : Nat => (s, s + 1))
        (fun l : List Nat => l ++ l) 5 1 (fun _ => 0)).engines id
      = (engineStep (fun s : Nat => (s, s + 1)))^[1 * laneInvocations
          ((generate_kernel 2 1 2 (fun s : Nat => (s, s + 1))
            (fun l : List Nat => l ++ l) 5 1 (fun _ => 0)).lanes id)]
          ((fun _ : Nat => 0) id)) :=
  mrg32k3a_generate_kernel_contract 2 1 2 5 1 (fun s : Nat => (s, s + 1))
    (fun l : List Nat => l ++ l) (fun _ => 0) (by decide) (by decide)

/-- Counterexample to C1 as stated: with `output_width = 2`,
`input_width = 1`, one lane, an odd base address and `n = 2` the kernel's
head and tail each cost a full transform invocation, so it consumes 2 raw
draws while `ceil(n / output_width) * input_width = ceil(2/2) * 1 = 1`. -/
theorem mrg32k3a_draw_count_counterexample :
    kernelTotalDraws 1 1 2 (fun s : Nat => (s, s + 1)) (fun l : List Nat => l ++ l)
        2 1 (fun _ => 0) = 2
  ∧ (2 + 2 - 1) / 2 * 1 = 1
  ∧ kernelTotalDraws 1 1 2 (fun s : Nat => (s, s + 1)) (fun l : List Nat => l ++ l)
        2 1 (fun _ => 0) ≠ (2 + 2 - 1) / 2 * 1 := by
  have h0 : vec_n 2 1 2 = 0 := rfl
  have hvec : vecLoop 1 0 1 (fun s : Nat => (s, s + 1)) (fun l : List Nat => l ++ l)
      0 0 [] = ([], 0, 0) := by
    rw [vecLoop]
    simp
  have hdraws : kernelTotalDraws 1 1 2 (fun s : Nat => (s, s + 1))
      (fun l : List Nat => l ++ l) 2 1 (fun _ => 0) = 2 := by
    rw [kernelTotalDraws, Finset.sum_range_one]
    simp only [laneRun, h0, hvec]
    norm_num [laneInvocations, head_size, tail_size, misalignment]
  exact ⟨hdraws, by norm_num, by rw [hdraws]; norm_num⟩

/-- C5: the initialization flag follows the two-state machine — construction
leaves it unset; `reset`, `set_seed`, `set_offset` clear it; `init` sets it,
and on an already-initialized handle `init` returns success with the state
untouched; `generate` runs `init` first, so its resulting state is always
initialized and its kernel run uses the initialized engine array. -/
theorem mrg32k3a_state_machine (mkEngine : Nat → Nat → Nat → E)
    (stride iw ow : Nat) (adv : E → Nat × E) (dist : List Nat → List T)
    (seed offset x n addr : Nat) (mem : Nat → E) (s : rocrand_mrg32k3a E) :
    (construct seed offset mem).m_engines_initialized = false
  ∧ (reset s).m_engines_initialized = false
  ∧ (set_seed x s).m_engines_initialized = false
  ∧ (set_offset x s).m_engines_initialized = false
  ∧ (init mkEngine s).2.m_engines_initialized = true
  ∧ init mkEngine { s with m_engines_initialized := true }
      = (rocrand_status.success, { s with m_engines_initialized := true })
  ∧ (generate mkEngine stride iw ow adv dist s n addr).1 = rocrand_status.success
  ∧ (generate mkEngine stride iw ow adv dist s n addr).2.1.m_engines_initialized
      = true
  ∧ (generate mkEngine stride iw ow adv dist s n addr).2.2
      = some (generate_kernel stride iw ow adv dist n addr
          (init mkEngine s).2.m_engines) := by
  refine ⟨rfl, rfl, rfl, rfl, init_flag mkEngine s, ?_, ?_, ?_, ?_⟩
  · unfold init
    rw [if_pos rfl]
  · rw [generate_eq]
  · rw [generate_eq]
    exact init_flag mkEngine s
  · rw [generate_eq]

/-- C6: a zero seed is replaced by the fixed nonzero default and a nonzero
seed is stored unchanged, both in the constructor and in `set_seed`; the
stored seed is never zero. -/
theorem mrg32k3a_seed_never_zero (seed offset : Nat) (mem : Nat → E)
    (s : rocrand_mrg32k3a E) :
    ((construct seed offset mem).m_seed
        = (if seed = 0 then ROCRAND_MRG32K3A_DEFAULT_SEED else seed)
      ∧ (construct seed offset mem).m_seed ≠ 0)
  ∧ ((set_seed seed s).m_seed
        = (if seed = 0 then ROCRAND_MRG32K3A_DEFAULT_SEED else seed)
      ∧ (set_seed seed s).m_seed ≠ 0) := by
  have hne : (if seed = 0 then ROCRAND_MRG32K3A_DEFAULT_SEED else seed) ≠ 0 := by
    by_cases h : seed = 0
    · rw [if_pos h]
      unfold ROCRAND_MRG32K3A_DEFAULT_SEED
      omega
    · rw [if_neg h]
      exact h
  exact ⟨⟨rfl, hne⟩, ⟨rfl, hne⟩⟩

/-- C4: starting from a freshly constructed handle with any (seed, offset)
and lane count, `reset()` followed by `generate(n)` reproduces the first
`generate(n)` run exactly: same status and bit-identical kernel output
(hence the same `n` buffer values, element for element), because `init`
re-derives the same engine array from the unchanged (seed, offset). -/
theorem mrg32k3a_reset_reproduces (mkEngine : Nat → Nat → Nat → E)
    (stride iw ow : Nat) (adv : E → Nat × E) (dist : List Nat → List T)
    (seed offset n addr : Nat) (mem : Nat → E) :
    (generate mkEngine stride iw ow adv dist
        (reset (generate mkEngine stride iw ow adv dist
          (construct seed offset mem) n addr).2.1) n addr).2.2
      = (generate mkEngine stride iw ow adv dist
          (construct seed offset mem) n addr).2.2
  ∧ (generate mkEngine stride iw ow adv dist
        (reset (generate mkEngine stride iw ow adv dist
          (construct seed offset mem) n addr).2.1) n addr).1
      = (generate mkEngine stride iw ow adv dist
          (construct seed offset mem) n addr).1 := by
  constructor
  · rw [generate_eq, generate_eq]
    simp [init, reset, construct]
  · rw [generate_eq, generate_eq]

/-- C7: `generate_poisson` with `lambda ≤ 0` returns the invalid-parameter
status, leaves the handle (seed, offset, flag, engine array) untouched, and
dispatches no kernel (no device writes). -/
theorem mrg32k3a_generate_poisson_invalid (mkEngine : Nat → Nat → Nat → E)
    (stride iw ow : Nat) (adv : E → Nat × E) (pdis : List Nat → List Nat)
    (s : rocrand_mrg32k3a E) (n addr : Nat) (lambda : ℚ) (hl : lambda ≤ 0) :
    generate_poisson mkEngine stride iw ow adv pdis s n addr lambda
      = (rocrand_status.invalid_parameter, s, none) := by
  unfold generate_poisson set_lambda
  rw [if_pos hl]

/-- Witness for C7 at `lambda = -1` on a concrete handle. -/
theorem mrg32k3a_generate_poisson_invalid_witness :
    generate_poisson (fun a b c : Nat => a + b + c) 2 1 1
        (fun s : Nat => (s, s + 1)) (fun l => l)
        ⟨7, 3, false, fun _ => 0⟩ 5 0 (-1)
      = (rocrand_status.invalid_parameter, ⟨7, 3, false, fun _ => 0⟩, none) :=
  mrg32k3a_generate_poisson_invalid (fun a b c : Nat => a + b + c) 2 1 1
    (fun s : Nat => (s, s + 1)) (fun l => l)
    ⟨7, 3, false, fun _ => 0⟩ 5 0 (-1) (by norm_num)

/-- C9: for every `(mean, stddev)` and every raw input, the log-normal
transform is the exponential applied on top of exactly what the normal
transform computes, with the same Box-Muller pair `v`: for the shared
float/double functor, output `i` is `expf` of the normal functor's output
`i`; for the native-half functor likewise with `hexp`; and for the
float-promoted half functor both functors share the same pair `v`, the
normal one emitting `f2h (mean + stddev * v_i)` and the log-normal one
`f2h (expf (mean + stddev * v_i))` in promoted arithmetic. -/
theorem mrg32k3a_log_normal_is_exp_of_normal {α H : Type} [Add α] [Mul α]
    (expf : α → α) (bm2 : Nat → Nat → α × α) (mean stddev : α)
    (input : Nat × Nat) (norm : Nat → Nat) (udh : Nat → H)
    (bmh : H → H → H × H) (hadd hmul : H → H → H) (hexp : H → H)
    (hmean hstddev : H) (x : Nat) (h2f : H → α) (f2h : α → H) :
    mrg_log_normal_distribution_apply expf bm2 mean stddev input
      = (expf (mrg_normal_distribution_apply bm2 mean stddev input).1,
         expf (mrg_normal_distribution_apply bm2 mean stddev input).2)
  ∧ mrg_log_normal_distribution_half_native norm udh bmh hadd hmul hexp
        hmean hstddev x
      = (hexp (mrg_normal_distribution_half_native norm udh bmh hadd hmul
          hmean hstddev x).1,
         hexp (mrg_normal_distribution_half_native norm udh bmh hadd hmul
          hmean hstddev x).2)
  ∧ mrg_log_normal_distribution_half_promoted expf norm udh bmh h2f f2h
        hmean hstddev x
      = (f2h (expf (h2f hmean + h2f hstddev
            * h2f (mrg_half_pair norm udh bmh x).1)),
         f2h (expf (h2f hmean + h2f hstddev
            * h2f (mrg_half_pair norm udh bmh x).2)))
  ∧ mrg_normal_distribution_half_promoted norm udh bmh h2f f2h hmean hstddev x
      = (f2h (h2f hmean + h2f hstddev * h2f (mrg_half_pair norm udh bmh x).1),
         f2h (h2f hmean + h2f hstddev * h2f (mrg_half_pair norm udh bmh x).2)) :=
  ⟨rfl, rfl, rfl, rfl⟩

end Claims

end Mrg32k3a
